import Mathlib

/-!
Shallow embedding of `src/HFF_CellProfiler_kinetics_analysis.py`.

A pandas DataFrame is embedded as a `List Row`; a column that can hold NaN
(`nuc_intens` after coercion / normalization, `PV_area`, the broadcast
per-image statistics) is an `Option ℚ`, with `none` playing the role of NaN:
arithmetic on `none` propagates `none`, comparisons against `none` are false,
and aggregations (`mean`, `std`, `quantile`) skip `none` entries, exactly as
pandas skips NaN.  Floating point values are embedded as exact rationals.
The only operation that escapes ℚ is the standard deviation (a square root);
the script's test `|mean - x| < k * std` is embedded in the equivalent squared
form `(mean - x)^2 < k^2 * var` (both sides of the original are nonnegative
and `std = sqrt var`), and the bridge to the real-valued formulation with
`Real.sqrt` is proved as a theorem.
-/

/-- Subtraction on NaN-able values: `none` (NaN) propagates. -/
def osub : Option ℚ → Option ℚ → Option ℚ
  | some a, some b => some (a - b)
  | _, _ => none

/-- Multiplication of a NaN-able value by a constant: `none` (NaN) propagates. -/
def omulc (c : ℚ) : Option ℚ → Option ℚ
  | some a => some (c * a)
  | none => none

/-- pandas `Series.mean` with `skipna` already applied: mean of the defined
entries, NaN (`none`) when there are none. -/
def qmean (xs : List ℚ) : Option ℚ :=
  if xs = [] then none else some (xs.sum / xs.length)

/-- pandas `Series.std` (ddof = 1), squared: the sample variance of the
defined entries; NaN (`none`) when fewer than two.  The script only ever
uses the std inside `|mean - x| < k * std`, which is embedded squared. -/
def qvarSample (xs : List ℚ) : Option ℚ :=
  if xs.length < 2 then none
  else
    some (((xs.map (fun x => (x - xs.sum / xs.length) ^ 2)).sum) / (xs.length - 1))

/-- pandas `Series.quantile(q)` (linear interpolation, NaN already skipped):
sort the values, take position `h = q * (n - 1)`, and interpolate linearly
between the neighbouring order statistics.  `none` (NaN) on an empty list. -/
def quantile (q : ℚ) (xs : List ℚ) : Option ℚ :=
  if xs = [] then none
  else
    let s := List.insertionSort (fun a b : ℚ => a ≤ b) xs
    let n := xs.length
    let h : ℚ := q * (n - 1)
    let i : ℕ := (Int.floor h).toNat
    let g : ℚ := h - i
    let a := s.getD i 0
    let b := s.getD (min (i + 1) (n - 1)) 0
    some (a + g * (b - a))

/-- One row of the unified dataset: one detected nucleus.  Raw columns come
from the CellProfiler CSVs (after the renames at the top of the script);
derived columns (`strain`, `moi`, `condition`, `infection`, `pos_nuc`, and
the per-image `image_*` statistics) are materialised as fields that later
pipeline stages fill in, mirroring pandas' dynamically added columns. -/
structure Row where
  row : String
  column : String
  well : String
  field : String
  timepoint : ℚ
  nuc_intens : Option ℚ
  count : ℚ
  PV_area : Option ℚ
  strain : String
  moi : ℚ
  condition : String
  infection : ℚ
  pos_nuc : ℚ
  image_numnuc : ℕ
  image_PVcount : ℚ
  image_background : Option ℚ
  image_mean_intens : Option ℚ
  image_totalcount : Option ℚ
deriving DecidableEq, Repr

/-- The image grouping key of the script:
`groupby(['condition', 'timepoint', 'well', 'field'])`. -/
def imageKey (r : Row) : String × ℚ × String × String :=
  (r.condition, r.timepoint, r.well, r.field)

/-- The outlier-comparison grouping key: `groupby(['condition', 'timepoint'])`. -/
def condTpKey (r : Row) : String × ℚ :=
  (r.condition, r.timepoint)

/-- The within-comparison-group image key used by `remove_outliers_image`:
`groupby(['well', 'field'])`. -/
def wfKey (r : Row) : String × String :=
  (r.well, r.field)

/-- `df.groupby(key).apply(f)`: split the rows into groups by key and
concatenate `f` of each group.  Group traversal order (pandas sorts keys,
here first-occurrence-style dedup order) never matters to the properties
proved below, which are stated via membership. -/
def groupApply {K : Type} [DecidableEq K] (key : Row → K) (f : List Row → List Row)
    (df : List Row) : List Row :=
  ((df.map key).dedup).flatMap (fun k => f (df.filter (fun r => key r = k)))

/-! ## Condition Labeler (`label_conditions`, script lines 5-17) -/

/-- A missing plate-map key aborts the script (pandas `apply` over a dict
lookup raises); the spec calls this failure a `ConfigurationError`. -/
inductive ConfigurationError where
  | missingKey (k : String)
deriving DecidableEq, Repr

/-- Dictionary lookup `plate_map[value]` as a fallible operation. -/
def lookupMap {α : Type} (m : List (String × α)) (k : String) : Option α :=
  (m.find? (fun p => p.1 = k)).map Prod.snd

/-- `series.apply(lambda value: table[value])`: the first row whose lookup
fails aborts the whole column assignment with that key's error. -/
def mapE {α β : Type} (f : α → Except ConfigurationError β) :
    List α → Except ConfigurationError (List β)
  | [] => .ok []
  | a :: t =>
    match f a with
    | .error e => .error e
    | .ok b =>
      match mapE f t with
      | .error e => .error e
      | .ok bs => .ok (b :: bs)

/-- `label_conditions(df, plate_columns_map, plate_rows_map)`:
sets `strain` from the column map and `moi` from the row map (each a
whole-column `apply` that fails on a missing key), overrides `strain` to the
sentinel string "null" on every `moi = 0` row, then sets
`condition := strain + str(moi)` using the possibly overridden strain. -/
def label_conditions (plate_columns_map : List (String × String))
    (plate_rows_map : List (String × ℚ)) (df : List Row) :
    Except ConfigurationError (List Row) := do
  let df1 ← mapE (fun r =>
    match lookupMap plate_columns_map r.column with
    | some s => .ok { r with strain := s }
    | none => .error (.missingKey r.column)) df
  let df2 ← mapE (fun r =>
    match lookupMap plate_rows_map r.row with
    | some m => .ok { r with moi := m }
    | none => .error (.missingKey r.row)) df1
  let df3 := df2.map (fun r => if r.moi = 0 then { r with strain := "null" } else r)
  pure (df3.map (fun r => { r with condition := r.strain ++ toString r.moi }))

/-! ## Image Aggregator (`calc_image_numcells`, `calc_image_PVcount`,
`calc_image_stat`, script lines 19-49) -/

/-- `calc_image_numcells`: broadcast the group's row count
(`image_grouped.shape[0]`) onto every row as `image_numnuc`. -/
def calc_image_numcells (g : List Row) : List Row :=
  g.map (fun r => { r with image_numnuc := g.length })

/-- `calc_image_PVcount`: broadcast the group's total parasite count
(`image_grouped['count'].sum()`) onto every row as `image_PVcount`. -/
def calc_image_PVcount (g : List Row) : List Row :=
  g.map (fun r => { r with image_PVcount := (g.map Row.count).sum })

/-- The three named per-image statistics of `calc_image_stat`. -/
inductive StatParam where
  | background
  | mean_intens
  | totalcount
deriving DecidableEq, Repr

/-- The group scalar computed by `calc_image_stat` for each named statistic:
`background` is the 0.1 quantile of `nuc_intens` over the zero-parasite rows
of the group (NaN when that subset is empty), `mean_intens` the mean of
`nuc_intens` over the group, `totalcount` the sum of `count` over the group. -/
def statOf (p : StatParam) (g : List Row) : Option ℚ :=
  match p with
  | .background => quantile (1/10) ((g.filter (fun r => r.count = 0)).filterMap Row.nuc_intens)
  | .mean_intens => qmean (g.filterMap Row.nuc_intens)
  | .totalcount => some ((g.map Row.count).sum)

/-- Store a named statistic's value into its `image_*` column. -/
def setStat (p : StatParam) (v : Option ℚ) (r : Row) : Row :=
  match p with
  | .background => { r with image_background := v }
  | .mean_intens => { r with image_mean_intens := v }
  | .totalcount => { r with image_totalcount := v }

/-- Read a named statistic's `image_*` column back from a row. -/
def statField (p : StatParam) (r : Row) : Option ℚ :=
  match p with
  | .background => r.image_background
  | .mean_intens => r.image_mean_intens
  | .totalcount => r.image_totalcount

/-- `calc_image_stat(image_grouped, param)`: broadcast the group scalar of
the named statistic onto every row of the group. -/
def calc_image_stat (g : List Row) (p : StatParam) : List Row :=
  g.map (setStat p (statOf p g))

/-! ## Outlier Excluder (`remove_outliers_image`, script lines 52-73) -/

/-- The threshold multiplier: 5 standard deviations for `mean_intens`,
3 for everything else (`num_std = 3; if param == 'mean_intens': num_std = 5`). -/
def num_std (p : StatParam) : ℚ :=
  match p with
  | .mean_intens => 5
  | _ => 3

/-- The first step of `remove_outliers_image`:
`condition_grouped.groupby(['well', 'field']).apply(calc_image_stat, param)`,
broadcasting each image's statistic onto that image's rows. -/
def broadcastStat (p : StatParam) (g : List Row) : List Row :=
  groupApply wfKey (fun h => calc_image_stat h p) g

/-- The defined entries of the broadcast per-image statistic column, over
which pandas computes the comparison group's mean and std (skipna). -/
def excluderVals (p : StatParam) (g : List Row) : List ℚ :=
  (broadcastStat p g).filterMap (statField p)

/-- `condition_grouped['image_<param>'].mean()`: group mean of the broadcast
column, so each image contributes once per row (cell) it contains. -/
def excluderMean (p : StatParam) (g : List Row) : Option ℚ :=
  qmean (excluderVals p g)

/-- `condition_grouped['image_<param>'].std()` squared: the sample variance
of the broadcast column (NaN when fewer than two defined entries). -/
def excluderVar (p : StatParam) (g : List Row) : Option ℚ :=
  qvarSample (excluderVals p g)

/-- `remove_outliers_image(condition_grouped, param)`: broadcast the
per-image statistic, then keep exactly the rows satisfying
`(condition_mean - image_stat).abs() < num_std * condition_std`; a NaN
statistic, mean or std makes the comparison false, dropping the row.
The test is embedded squared: `(m - x)^2 < num_std^2 * var`, equivalent to
the source's `|m - x| < num_std * sqrt var` since both sides there are
nonnegative. -/
def remove_outliers_image (g : List Row) (p : StatParam) : List Row :=
  let g2 := broadcastStat p g
  let m := excluderMean p g
  let v := excluderVar p g
  g2.filter (fun r =>
    match statField p r, m, v with
    | some x, some mv, some vv => decide ((mv - x) ^ 2 < (num_std p) ^ 2 * vv)
    | _, _, _ => false)

/-! ## Timepoint-Zero Synthesizer (`make_t0`, script lines 76-99) -/

/-- The per-copy relabeling of one loop iteration of `make_t0`:
`t0_df['moi'] = moi; t0_df['strain'] = strain;
t0_df['condition'] = str(strain)+str(moi)`. -/
def set_t0 (s : String) (m : ℚ) (r : Row) : Row :=
  { r with moi := m, strain := s, condition := s ++ toString m }

/-- `make_t0(df)`: copy the uninfected rows (`strain == 'null'`) with
`timepoint := 0`, drop them from the dataset, and append one relabeled copy
of that baseline per (strain, moi) pair of the remaining (infected) rows,
with `mois = sorted(df['moi'].unique())` and `strains = df['strain'].unique()`. -/
def make_t0 (df : List Row) : List Row :=
  let t0_df := (df.filter (fun r => r.strain = "null")).map
    (fun r => { r with timepoint := 0 })
  let dfI := df.filter (fun r => r.strain ≠ "null")
  let mois := List.insertionSort (fun a b : ℚ => a ≤ b) ((dfI.map Row.moi).dedup)
  let strains := (dfI.map Row.strain).dedup
  dfI ++ strains.flatMap (fun s => mois.flatMap (fun m => t0_df.map (set_t0 s m)))

/-! ## Artifact filters, normalization, classification and the pipeline
(script lines 213-279) -/

/-- `df.ix[df['count'] > 0, 'infection'] = 100; fillna(0)` (lines 216-217). -/
def label_infection (df : List Row) : List Row :=
  df.map (fun r => { r with infection := if 0 < r.count then 100 else 0 })

/-- Lines 226-227: broadcast each image's row count and keep the rows with
`image_numnuc > 100`. -/
def low_cell_filter (df : List Row) : List Row :=
  (groupApply imageKey calc_image_numcells df).filter (fun r => 100 < r.image_numnuc)

/-- Lines 238-239: broadcast each image's total parasite count and keep the
`moi == 0` rows unconditionally, plus the `moi != 0` rows with
`0 < image_PVcount < 400` (`pd.concat` puts the `moi == 0` block first). -/
def parasite_filter (df : List Row) : List Row :=
  let d := groupApply imageKey calc_image_PVcount df
  d.filter (fun r => r.moi = 0) ++
    d.filter (fun r => r.moi ≠ 0 ∧ 0 < r.image_PVcount ∧ r.image_PVcount < 400)

/-- The background of one image of `df`: the `background` statistic of the
rows sharing that image key. -/
def background_of (df : List Row) (k : String × ℚ × String × String) : Option ℚ :=
  statOf .background (df.filter (fun r => imageKey r = k))

/-- Line 247: `df.groupby([...]).apply(calc_image_stat, param='background')`. -/
def add_background (df : List Row) : List Row :=
  groupApply imageKey (fun g => calc_image_stat g .background) df

/-- Lines 247-251: compute each image's background and replace `nuc_intens`
with `(nuc_intens - image_background) * 10000`; an image with no
zero-parasite cell has NaN background, so its rows get NaN `nuc_intens`
(no error is raised). -/
def normalize_intens (df : List Row) : List Row :=
  (add_background df).map
    (fun r => { r with nuc_intens := omulc 10000 (osub r.nuc_intens r.image_background) })

/-- The value `normalize_intens` produces from input row `r` of `df`. -/
def normRow (df : List Row) (r : Row) : Row :=
  let b := background_of df (imageKey r)
  { r with image_background := b, nuc_intens := omulc 10000 (osub r.nuc_intens b) }

/-- One outlier-exclusion pass at (condition, timepoint) granularity
(lines 254 and 262). -/
def outlier_pass (p : StatParam) (df : List Row) : List Row :=
  groupApply condTpKey (fun g => remove_outliers_image g p) df

/-- Both outlier-exclusion passes in script order: first `mean_intens`
(line 254), then `totalcount` on its output (line 262). -/
def outlier_passes (df : List Row) : List Row :=
  outlier_pass .totalcount (outlier_pass .mean_intens df)

/-- Line 273: the positive-cell threshold
`df.loc[df['strain'] == 'null']['nuc_intens'].quantile(0.99)`, computed once
over the whole dataset's sentinel-strain rows. -/
def uninfectednucintens (df : List Row) : Option ℚ :=
  quantile (99/100) ((df.filter (fun r => r.strain = "null")).filterMap Row.nuc_intens)

/-- Lines 273-275: `df.ix[df['nuc_intens'] > uninfectednucintens, 'pos_nuc'] = 100;
fillna(0)`.  A NaN `nuc_intens` or NaN threshold compares false, giving 0. -/
def label_pos_nuc (df : List Row) : List Row :=
  df.map (fun r =>
    { r with pos_nuc :=
        match r.nuc_intens, uninfectednucintens df with
        | some x, some t => if t < x then 100 else 0
        | _, _ => 0 })

/-- The cleaning/normalization/derivation pipeline of the script body
(lines 213-279), from the labeled raw rows to the dataset written out:
condition labeling (which aborts on a missing plate-map key before any
aggregation), infection labeling, the two artifact filters, background
normalization, the two outlier passes, positive-cell classification, and
timepoint-zero synthesis. -/
def pipeline (plate_columns_map : List (String × String))
    (plate_rows_map : List (String × ℚ)) (df0 : List Row) :
    Except ConfigurationError (List Row) := do
  let df ← label_conditions plate_columns_map plate_rows_map df0
  let df := label_infection df
  let df := low_cell_filter df
  let df := parasite_filter df
  let df := normalize_intens df
  let df := outlier_passes df
  let df := label_pos_nuc df
  pure (make_t0 df)

/-! ## Summary Statistics Engine (`per_group_stats`, script lines 102-160)

`describe()`'s `mean`/`std` columns for the five metrics; the `std` column
is carried squared (as the sample variance), consistently with the squared
embedding of standard deviations. -/

/-- One row of a per-well statistics table: the `(moi, timepoint, strain,
well)` key and, for each of the five metrics (`nuc_intens`, `pos_nuc`,
`infection`, `count`, `PV_area`), the group mean and (squared) std from
`describe()`. -/
structure WellStat where
  moi : ℚ
  timepoint : ℚ
  strain : String
  well : String
  mean_intens : Option ℚ
  var_intens : Option ℚ
  mean_percentposnuc : Option ℚ
  var_percentposnuc : Option ℚ
  mean_percentinf : Option ℚ
  var_percentinf : Option ℚ
  mean_count : Option ℚ
  var_count : Option ℚ
  mean_PVarea : Option ℚ
  var_PVarea : Option ℚ
deriving DecidableEq, Repr

/-- The per-well grouping key `['moi', 'timepoint', 'strain', 'well']`. -/
def wellKey (r : Row) : ℚ × ℚ × String × String :=
  (r.moi, r.timepoint, r.strain, r.well)

/-- The `describe()` record of one (moi, timepoint, strain, well) group:
mean and (squared) std of each of the five metric columns (pandas skips NaN
entries of `nuc_intens` and `PV_area`). -/
def wellGroupStat (df : List Row) (k : ℚ × ℚ × String × String) : WellStat :=
  { moi := k.1, timepoint := k.2.1, strain := k.2.2.1, well := k.2.2.2
    mean_intens := qmean ((df.filter (fun r => wellKey r = k)).filterMap Row.nuc_intens)
    var_intens := qvarSample ((df.filter (fun r => wellKey r = k)).filterMap Row.nuc_intens)
    mean_percentposnuc := qmean ((df.filter (fun r => wellKey r = k)).map Row.pos_nuc)
    var_percentposnuc := qvarSample ((df.filter (fun r => wellKey r = k)).map Row.pos_nuc)
    mean_percentinf := qmean ((df.filter (fun r => wellKey r = k)).map Row.infection)
    var_percentinf := qvarSample ((df.filter (fun r => wellKey r = k)).map Row.infection)
    mean_count := qmean ((df.filter (fun r => wellKey r = k)).map Row.count)
    var_count := qvarSample ((df.filter (fun r => wellKey r = k)).map Row.count)
    mean_PVarea := qmean ((df.filter (fun r => wellKey r = k)).filterMap Row.PV_area)
    var_PVarea := qvarSample ((df.filter (fun r => wellKey r = k)).filterMap Row.PV_area) }

/-- `per_group_stats(df, 'well')`: group by (moi, timepoint, strain, well)
and take `describe()`'s mean and std of each of the five metric columns. -/
def per_group_stats_well (df : List Row) : List WellStat :=
  ((df.map wellKey).dedup).map (wellGroupStat df)

/-- One row of a per-condition statistics table: the `(moi, timepoint,
strain)` key and mean / (squared) std over the per-well means. -/
structure CondStat where
  moi : ℚ
  timepoint : ℚ
  strain : String
  mean_intens : Option ℚ
  var_intens : Option ℚ
  mean_percentposnuc : Option ℚ
  var_percentposnuc : Option ℚ
  mean_percentinf : Option ℚ
  var_percentinf : Option ℚ
  mean_count : Option ℚ
  var_count : Option ℚ
  mean_PVarea : Option ℚ
  var_PVarea : Option ℚ
deriving DecidableEq, Repr

/-- The per-condition grouping key `['moi', 'timepoint', 'strain']` applied
to a per-well row. -/
def condKey (w : WellStat) : ℚ × ℚ × String :=
  (w.moi, w.timepoint, w.strain)

/-- The `describe()` record of one (moi, timepoint, strain) group of the
per-well table: mean and (squared) std of the per-well *mean* columns. -/
def condGroupStat (ws : List WellStat) (k : ℚ × ℚ × String) : CondStat :=
  { moi := k.1, timepoint := k.2.1, strain := k.2.2
    mean_intens := qmean ((ws.filter (fun w => condKey w = k)).filterMap WellStat.mean_intens)
    var_intens := qvarSample ((ws.filter (fun w => condKey w = k)).filterMap WellStat.mean_intens)
    mean_percentposnuc :=
      qmean ((ws.filter (fun w => condKey w = k)).filterMap WellStat.mean_percentposnuc)
    var_percentposnuc :=
      qvarSample ((ws.filter (fun w => condKey w = k)).filterMap WellStat.mean_percentposnuc)
    mean_percentinf :=
      qmean ((ws.filter (fun w => condKey w = k)).filterMap WellStat.mean_percentinf)
    var_percentinf :=
      qvarSample ((ws.filter (fun w => condKey w = k)).filterMap WellStat.mean_percentinf)
    mean_count := qmean ((ws.filter (fun w => condKey w = k)).filterMap WellStat.mean_count)
    var_count := qvarSample ((ws.filter (fun w => condKey w = k)).filterMap WellStat.mean_count)
    mean_PVarea := qmean ((ws.filter (fun w => condKey w = k)).filterMap WellStat.mean_PVarea)
    var_PVarea :=
      qvarSample ((ws.filter (fun w => condKey w = k)).filterMap WellStat.mean_PVarea) }

/-- `per_group_stats(df, 'well_conditions')`: group the per-well table by
(moi, timepoint, strain) and take `describe()`'s mean and std of the
per-well *mean* columns (`mean_intens`, `mean_percentposnuc`,
`mean_percentinf`, `mean_count`, `mean_PVarea`) — a mean of per-well means,
one entry per well, not a re-aggregation over raw cells. -/
def per_group_stats_conditions (ws : List WellStat) : List CondStat :=
  ((ws.map condKey).dedup).map (condGroupStat ws)

/-! ## Generic lemmas about the grouping combinator -/

theorem mem_groupApply {K : Type} [DecidableEq K] (key : Row → K)
    (f : List Row → List Row) (df : List Row) (r : Row)
    (h : r ∈ groupApply key f df) :
    ∃ k, k ∈ (df.map key).dedup ∧ r ∈ f (df.filter (fun x => key x = k)) := by
  unfold groupApply at h
  exact List.mem_flatMap.mp h

theorem groupApply_mem {K : Type} [DecidableEq K] (key : Row → K)
    (f : List Row → List Row) (df : List Row) (r : Row) (k : K)
    (hk : k ∈ (df.map key).dedup) (hr : r ∈ f (df.filter (fun x => key x = k))) :
    r ∈ groupApply key f df := by
  unfold groupApply
  exact List.mem_flatMap.mpr ⟨k, hk, hr⟩

/-- Membership in a grouped `apply` whose per-group function is a row map:
the output rows are exactly the input rows transformed by their own group. -/
theorem mem_groupApply_map {K : Type} [DecidableEq K] (key : Row → K)
    (u : List Row → Row → Row) (df : List Row) (r : Row) :
    r ∈ groupApply key (fun g => g.map (u g)) df ↔
      ∃ r0 ∈ df, r = u (df.filter (fun x => key x = key r0)) r0 := by
  constructor
  · intro h
    rcases mem_groupApply key _ df r h with ⟨k, hk, hr⟩
    rcases List.mem_map.mp hr with ⟨r0, hr0, hval⟩
    have h0 := List.mem_filter.mp hr0
    have hkey : key r0 = k := by simpa using h0.2
    refine ⟨r0, h0.1, ?_⟩
    rw [hkey]
    exact hval.symm
  · rintro ⟨r0, hr0, rfl⟩
    refine groupApply_mem key _ df _ (key r0)
      (List.mem_dedup.mpr (List.mem_map_of_mem _ hr0)) ?_
    exact List.mem_map_of_mem _ (List.mem_filter.mpr ⟨hr0, by simp⟩)

/-! ## Field bookkeeping for `setStat` -/

theorem statField_setStat (p : StatParam) (v : Option ℚ) (r : Row) :
    statField p (setStat p v r) = v := by
  cases p <;> rfl

theorem setStat_nuc_intens (p : StatParam) (v : Option ℚ) (r : Row) :
    (setStat p v r).nuc_intens = r.nuc_intens := by
  cases p <;> rfl

theorem setStat_wfKey (p : StatParam) (v : Option ℚ) (r : Row) :
    wfKey (setStat p v r) = wfKey r := by
  cases p <;> rfl

theorem setStat_condTpKey (p : StatParam) (v : Option ℚ) (r : Row) :
    condTpKey (setStat p v r) = condTpKey r := by
  cases p <;> rfl

/-- Membership in the broadcast step of `remove_outliers_image`. -/
theorem mem_broadcastStat (p : StatParam) (g : List Row) (r : Row) :
    r ∈ broadcastStat p g ↔
      ∃ r0 ∈ g, r = setStat p (statOf p (g.filter (fun x => wfKey x = wfKey r0))) r0 := by
  unfold broadcastStat calc_image_stat
  exact mem_groupApply_map wfKey (fun h => setStat p (statOf p h)) g r

/-! ## Concrete sample rows used by witnesses -/

/-- A baseline concrete row for witness instantiations. -/
def row0 : Row :=
  { row := "B", column := "01", well := "B - 01", field := "1", timepoint := 3,
    nuc_intens := some 1, count := 0, PV_area := none, strain := "HA", moi := 3,
    condition := "HA3", infection := 0, pos_nuc := 0, image_numnuc := 0,
    image_PVcount := 0, image_background := none, image_mean_intens := none,
    image_totalcount := none }

/-! ## C5: low-cell-count filter -/

/-- C5: the low-cell-count filter keeps exactly the rows whose
(condition, timepoint, well, field) image group has more than 100 rows —
i.e. it drops exactly those with `image_numnuc ≤ 100` — so every surviving
row's image has at least 100 nuclei. -/
theorem claim_C5 (df : List Row) :
    (∀ r0 ∈ df,
      ({ r0 with image_numnuc := (df.filter (fun x => imageKey x = imageKey r0)).length }
          ∈ low_cell_filter df
        ↔ 100 < (df.filter (fun x => imageKey x = imageKey r0)).length))
    ∧ (∀ r ∈ low_cell_filter df, 100 ≤ r.image_numnuc) := by
  have hrepr : low_cell_filter df =
      (groupApply imageKey
        (fun g => g.map (fun r => { r with image_numnuc := g.length })) df).filter
        (fun r => 100 < r.image_numnuc) := rfl
  constructor
  · intro r0 hr0
    rw [hrepr]
    constructor
    · intro h
      have h2 := (List.mem_filter.mp h).2
      simpa using h2
    · intro h
      refine List.mem_filter.mpr ⟨?_, by simpa using h⟩
      exact (mem_groupApply_map imageKey
        (fun g r => { r with image_numnuc := g.length }) df _).mpr ⟨r0, hr0, rfl⟩
  · intro r hr
    rw [hrepr] at hr
    have h2 := (List.mem_filter.mp hr).2
    have : 100 < r.image_numnuc := by simpa using h2
    omega

/-- Witness for C5 at a concrete one-row dataset: the single row's image has
1 ≤ 100 rows, so its enriched version is not in the filter output. -/
theorem claim_C5_witness :
    row0 ∈ [row0] ∧
      ({ row0 with image_numnuc :=
          (([row0] : List Row).filter (fun x => imageKey x = imageKey row0)).length }
        ∉ low_cell_filter [row0]) := by
  have h := (claim_C5 [row0]).1 row0 (by simp)
  refine ⟨by simp, ?_⟩
  intro hmem
  have := h.mp hmem
  simp at this

/-! ## C4: fluorescence normalizer -/

/-- Membership in the normalizer's output: exactly the input rows,
transformed by `normRow` (background of their own image attached, then
`nuc_intens := (nuc_intens - image_background) * 10000`). -/
theorem mem_normalize_intens (df : List Row) (r : Row) :
    r ∈ normalize_intens df ↔ ∃ r0 ∈ df, r = normRow df r0 := by
  unfold normalize_intens
  constructor
  · intro h
    rcases List.mem_map.mp h with ⟨s, hs, hval⟩
    have hs2 : s ∈ groupApply imageKey
        (fun g => g.map (setStat .background (statOf .background g))) df := hs
    rcases (mem_groupApply_map imageKey
        (fun g => setStat .background (statOf .background g)) df s).mp hs2 with
      ⟨r0, hr0, rfl⟩
    exact ⟨r0, hr0, hval.symm⟩
  · rintro ⟨r0, hr0, rfl⟩
    refine List.mem_map.mpr ⟨setStat .background (background_of df (imageKey r0)) r0, ?_, rfl⟩
    exact (mem_groupApply_map imageKey
      (fun g => setStat .background (statOf .background g)) df _).mpr ⟨r0, hr0, rfl⟩

theorem osub_none (a : Option ℚ) : osub a none = none := by
  cases a <;> rfl

theorem quantile_singleton (q : ℚ) (x : ℚ) : quantile q [x] = some x := by
  simp [quantile, List.insertionSort, List.orderedInsert]

/-- C4: every input row appears in the normalizer's output with
`nuc_intens := (nuc_intens - image_background) * 10000`, where the
background is the 0.1 quantile of `nuc_intens` over the zero-parasite rows
of the row's image group; when the image has no zero-parasite row the
background and the normalized `nuc_intens` are missing (no error), and
conversely every output row arises this way from some input row. -/
theorem claim_C4 (df : List Row) :
    (∀ r0 ∈ df,
      normRow df r0 ∈ normalize_intens df
      ∧ (normRow df r0).nuc_intens
          = omulc 10000 (osub r0.nuc_intens (background_of df (imageKey r0)))
      ∧ background_of df (imageKey r0)
          = quantile (1/10)
              (((df.filter (fun x => imageKey x = imageKey r0)).filter
                (fun x => x.count = 0)).filterMap Row.nuc_intens)
      ∧ ((∀ x ∈ df, imageKey x = imageKey r0 → x.count ≠ 0) →
          (normRow df r0).nuc_intens = none))
    ∧ (∀ r ∈ normalize_intens df, ∃ r0 ∈ df, r = normRow df r0) := by
  constructor
  · intro r0 hr0
    refine ⟨(mem_normalize_intens df _).mpr ⟨r0, hr0, rfl⟩, rfl, rfl, ?_⟩
    intro hzero
    have hfil : (df.filter (fun x => imageKey x = imageKey r0)).filter
        (fun x => x.count = 0) = [] := by
      rw [List.filter_eq_nil_iff]
      intro a ha
      have ha2 := List.mem_filter.mp ha
      have : imageKey a = imageKey r0 := by simpa using ha2.2
      simpa using hzero a ha2.1 this
    have hbg : background_of df (imageKey r0) = none := by
      unfold background_of statOf
      rw [hfil]
      rfl
    show omulc 10000 (osub r0.nuc_intens (background_of df (imageKey r0))) = none
    rw [hbg, osub_none]
    rfl
  · exact fun r hr => (mem_normalize_intens df r).mp hr

/-- Rows for the C4 witness: one image, one zero-parasite cell with raw
intensity 10 (so background = 10) and one infected cell with raw intensity
30 (normalized to 200000); a second dataset whose only row is infected, so
its background and normalized intensity are missing. -/
def rowC4a : Row := { row0 with nuc_intens := some 10, count := 0 }

def rowC4b : Row := { row0 with nuc_intens := some 30, count := 2 }

/-- Witness for C4: at the concrete two-row image, the infected row's
normalized intensity is (30 - 10) * 10000 = 200000; at the concrete
all-infected dataset, the normalized intensity is missing. -/
theorem claim_C4_witness :
    rowC4b ∈ [rowC4a, rowC4b]
    ∧ normRow [rowC4a, rowC4b] rowC4b ∈ normalize_intens [rowC4a, rowC4b]
    ∧ (normRow [rowC4a, rowC4b] rowC4b).nuc_intens = some 200000
    ∧ (normRow [rowC4b] rowC4b).nuc_intens = none := by
  have h := (claim_C4 [rowC4a, rowC4b]).1 rowC4b (by simp)
  have h2 := (claim_C4 [rowC4b]).1 rowC4b (by simp)
  refine ⟨by simp, h.1, ?_, ?_⟩
  · have hb : background_of [rowC4a, rowC4b] (imageKey rowC4b) = some 10 := by
      simp [background_of, statOf, rowC4a, rowC4b, row0, imageKey, quantile_singleton]
    rw [h.2.1, hb]
    norm_num [rowC4b, row0, osub, omulc]
  · refine h2.2.2.2 ?_
    intro x hx hk
    simp only [List.mem_singleton] at hx
    subst hx
    norm_num [rowC4b, row0]

/-! ## C3: positive-cell threshold and relabeling -/

/-- C3: the positive-cell threshold is the 0.99 quantile of `nuc_intens`
over the sentinel-strain rows of the whole dataset (one global threshold,
not per condition), and a row with defined intensity `x` is relabeled
`pos_nuc = 100` iff `x` is strictly greater than the threshold; at the
boundary `x = t` it is labeled 0. -/
theorem claim_C3 (df : List Row) (r : Row) (t x : ℚ)
    (h1 : uninfectednucintens df = some t) (hr : r ∈ df) (h2 : r.nuc_intens = some x) :
    uninfectednucintens df
      = quantile (99/100) ((df.filter (fun s => s.strain = "null")).filterMap Row.nuc_intens)
    ∧ { r with pos_nuc := if t < x then 100 else 0 } ∈ label_pos_nuc df
    ∧ (({ r with pos_nuc := if t < x then (100:ℚ) else 0 }).pos_nuc = 100 ↔ t < x)
    ∧ (x = t → ({ r with pos_nuc := if t < x then (100:ℚ) else 0 }).pos_nuc = 0) := by
  refine ⟨rfl, ?_, ?_, ?_⟩
  · unfold label_pos_nuc
    refine List.mem_map.mpr ⟨r, hr, ?_⟩
    simp only [h1, h2]
  · show (if t < x then (100:ℚ) else 0) = 100 ↔ t < x
    split_ifs with h
    · simp [h]
    · simp [h]
  · intro he
    show (if t < x then (100:ℚ) else 0) = 0
    rw [if_neg]
    rw [he]
    exact lt_irrefl t

/-- Rows for the C3 witness: two sentinel-strain rows with intensities 0 and
100 give threshold `quantile 0.99 [0, 100] = 99`; a non-sentinel row sits
exactly at the boundary value 99. -/
def rowC3n1 : Row := { row0 with strain := "null", nuc_intens := some 0 }

def rowC3n2 : Row := { row0 with strain := "null", nuc_intens := some 100 }

def rowC3b : Row := { row0 with nuc_intens := some 99 }

def dfC3 : List Row := [rowC3n1, rowC3n2, rowC3b]

/-- Witness for C3: threshold 99; the intensity-100 sentinel row is labeled
positive, the row exactly at 99 is labeled 0. -/
theorem claim_C3_witness :
    uninfectednucintens dfC3 = some 99
    ∧ ({ rowC3n2 with pos_nuc := if (99:ℚ) < 100 then (100:ℚ) else 0 }).pos_nuc = 100
    ∧ ({ rowC3b with pos_nuc := if (99:ℚ) < 99 then (100:ℚ) else 0 }).pos_nuc = 0
    ∧ { rowC3b with pos_nuc := if (99:ℚ) < 99 then (100:ℚ) else 0 } ∈ label_pos_nuc dfC3 := by
  have hl : (dfC3.filter (fun s => s.strain = "null")).filterMap Row.nuc_intens = [0, 100] := by
    simp [dfC3, rowC3n1, rowC3n2, rowC3b, row0]
  have hthr : uninfectednucintens dfC3 = some 99 := by
    unfold uninfectednucintens
    rw [hl, quantile]
    norm_num [List.insertionSort, List.orderedInsert]
    simp
  have hpos := claim_C3 dfC3 rowC3n2 99 100 hthr (by simp [dfC3]) rfl
  have hbnd := claim_C3 dfC3 rowC3b 99 99 hthr (by simp [dfC3]) rfl
  exact ⟨hthr, hpos.2.2.1.mpr (by norm_num), hbnd.2.2.2 rfl, hbnd.2.1⟩

/-! ## C6: missing plate-map key aborts the pipeline -/

theorem mapE_error_of_mem {α β : Type} (f : α → Except ConfigurationError β)
    (l : List α) (h : ∃ a ∈ l, ∃ e, f a = .error e) :
    ∃ e, mapE f l = .error e := by
  induction l with
  | nil =>
    rcases h with ⟨a, ha, _⟩
    cases ha
  | cons c t ih =>
    rw [mapE]
    cases hfc : f c with
    | error e => exact ⟨e, rfl⟩
    | ok b =>
      rcases h with ⟨a, ha, e, he⟩
      rcases List.mem_cons.mp ha with rfl | hat
      · rw [hfc] at he
        cases he
      · rcases ih ⟨a, hat, e, he⟩ with ⟨e2, he2⟩
        rw [he2]
        exact ⟨e2, rfl⟩

theorem mapE_ok_mem {α β : Type} (f : α → Except ConfigurationError β) :
    ∀ (l : List α) (l2 : List β), mapE f l = .ok l2 → ∀ a ∈ l, ∃ b ∈ l2, f a = .ok b := by
  intro l
  induction l with
  | nil =>
    intro l2 _ a ha
    cases ha
  | cons c t ih =>
    intro l2 h a ha
    rw [mapE] at h
    cases hfc : f c with
    | error e =>
      rw [hfc] at h
      cases h
    | ok b =>
      rw [hfc] at h
      cases hmt : mapE f t with
      | error e =>
        rw [hmt] at h
        cases h
      | ok bs =>
        rw [hmt] at h
        cases h
        rcases List.mem_cons.mp ha with rfl | hat
        · exact ⟨b, List.mem_cons_self b bs, hfc⟩
        · rcases ih bs hmt a hat with ⟨b2, hb2, hfb2⟩
          exact ⟨b2, List.mem_cons_of_mem b hb2, hfb2⟩

/-- C6: if some row's `column` value is absent from the column→strain map or
its `row` value is absent from the row→MOI map, the whole pipeline fails
with a `ConfigurationError` (condition labeling aborts, so no aggregation,
filtering or statistics stage ever receives a dataset). -/
theorem claim_C6 (plate_columns_map : List (String × String))
    (plate_rows_map : List (String × ℚ)) (df0 : List Row)
    (h : ∃ r ∈ df0, lookupMap plate_columns_map r.column = none
        ∨ lookupMap plate_rows_map r.row = none) :
    ∃ e, pipeline plate_columns_map plate_rows_map df0 = .error e := by
  have hlab : ∃ e, label_conditions plate_columns_map plate_rows_map df0 = .error e := by
    unfold label_conditions
    cases hm1 : mapE (fun r =>
        match lookupMap plate_columns_map r.column with
        | some s => .ok { r with strain := s }
        | none => .error (.missingKey r.column)) df0 with
    | error e =>
      exact ⟨e, rfl⟩
    | ok df1 =>
      rcases h with ⟨r, hr, hmiss⟩
      rcases hcol : lookupMap plate_columns_map r.column with _ | s
      · have hf1 : (match lookupMap plate_columns_map r.column with
            | some s => Except.ok { r with strain := s }
            | none => Except.error (ConfigurationError.missingKey r.column))
            = Except.error (ConfigurationError.missingKey r.column) := by
          rw [hcol]
        rcases mapE_error_of_mem (fun r : Row =>
            match lookupMap plate_columns_map r.column with
            | some s => Except.ok { r with strain := s }
            | none => Except.error (ConfigurationError.missingKey r.column)) df0
            ⟨r, hr, ⟨.missingKey r.column, hf1⟩⟩ with ⟨e, he⟩
        rw [hm1] at he
        cases he
      · have hrow : lookupMap plate_rows_map r.row = none := by
          rcases hmiss with hc | hw
          · rw [hcol] at hc
            cases hc
          · exact hw
        rcases mapE_ok_mem _ df0 df1 hm1 r hr with ⟨b, hb, hfb⟩
        have hbr : b = { r with strain := s } := by
          rw [hcol] at hfb
          cases hfb
          rfl
        have h2 : ∃ e, mapE (fun r =>
            match lookupMap plate_rows_map r.row with
            | some m => Except.ok { r with moi := m }
            | none => Except.error (.missingKey r.row)) df1 = .error e := by
          refine mapE_error_of_mem _ df1 ⟨b, hb, ⟨.missingKey b.row, ?_⟩⟩
          have hbn : lookupMap plate_rows_map b.row = none := by
            rw [hbr]
            exact hrow
          show (match lookupMap plate_rows_map b.row with
            | some m => Except.ok { b with moi := m }
            | none => Except.error (ConfigurationError.missingKey b.row))
            = Except.error (ConfigurationError.missingKey b.row)
          rw [hbn]
        rcases h2 with ⟨e, he⟩
        refine ⟨e, ?_⟩
        show Except.bind (mapE _ df1) _ = Except.error e
        rw [he]
        rfl
  rcases hlab with ⟨e, he⟩
  refine ⟨e, ?_⟩
  unfold pipeline
  rw [he]
  rfl

/-- Witness for C6: a one-row dataset whose column label is missing from an
empty plate map makes the pipeline fail. -/
theorem claim_C6_witness :
    row0 ∈ [row0] ∧
      ∃ e, pipeline [] [("B", (3:ℚ))] [row0] = .error e := by
  refine ⟨by simp, ?_⟩
  exact claim_C6 [] [("B", (3:ℚ))] [row0] ⟨row0, by simp, Or.inl rfl⟩

/-! ## C2: timepoint-zero fan-out -/

/-- The uninfected baseline extracted by `make_t0`: sentinel-strain rows,
relabeled as timepoint 0. -/
def t0Base (df : List Row) : List Row :=
  (df.filter (fun r => r.strain = "null")).map (fun r => { r with timepoint := 0 })

/-- The infected rows kept by `make_t0` (`df[df['strain'] != 'null']`). -/
def infectedRows (df : List Row) : List Row :=
  df.filter (fun r => r.strain ≠ "null")

/-- `sorted(df['moi'].unique())` over the infected rows. -/
def moisOf (df : List Row) : List ℚ :=
  List.insertionSort (fun a b : ℚ => a ≤ b) (((infectedRows df).map Row.moi).dedup)

/-- `df['strain'].unique()` over the infected rows. -/
def strainsOf (df : List Row) : List String :=
  ((infectedRows df).map Row.strain).dedup

theorem length_flatMap_const {α β : Type} (l : List α) (f : α → List β) (n : ℕ)
    (h : ∀ a ∈ l, (f a).length = n) : (l.flatMap f).length = l.length * n := by
  induction l with
  | nil => simp
  | cons a t ih =>
    rw [List.flatMap_cons, List.length_append, h a (List.mem_cons_self a t),
      ih (fun b hb => h b (List.mem_cons_of_mem a hb)), List.length_cons]
    ring

/-- C2: `make_t0` outputs the infected rows followed by one full copy of the
uninfected baseline per (strain, moi) pair — `S × M` copies in total, each
of the full baseline row count, with pairwise distinct
(strain, moi, condition) assignments — the mois all being non-zero when
infected rows have non-zero moi; and no original uninfected row (sentinel
strain) appears in the output. -/
theorem claim_C2 (df : List Row)
    (hm : ∀ r ∈ df, r.strain ≠ "null" → r.moi ≠ 0) :
    make_t0 df
      = infectedRows df
        ++ (strainsOf df).flatMap (fun s => (moisOf df).flatMap (fun m =>
            (t0Base df).map (set_t0 s m)))
    ∧ (make_t0 df).length
      = (infectedRows df).length
        + (strainsOf df).length * ((moisOf df).length * (t0Base df).length)
    ∧ List.Nodup ((strainsOf df).flatMap (fun s =>
        (moisOf df).map (fun m => (s, m, s ++ toString m))))
    ∧ (∀ m ∈ moisOf df, m ≠ 0)
    ∧ (∀ r ∈ df, r.strain = "null" → r ∉ make_t0 df) := by
  have hstrain_ne : ∀ s ∈ strainsOf df, s ≠ "null" := by
    intro s hs
    rcases List.mem_map.mp (List.mem_dedup.mp hs) with ⟨r1, hr1, rfl⟩
    have := (List.mem_filter.mp hr1).2
    simpa using this
  have hstruct : make_t0 df
      = infectedRows df
        ++ (strainsOf df).flatMap (fun s => (moisOf df).flatMap (fun m =>
            (t0Base df).map (set_t0 s m))) := rfl
  refine ⟨hstruct, ?_, ?_, ?_, ?_⟩
  · rw [hstruct, List.length_append]
    congr 1
    refine length_flatMap_const _ _ _ (fun s _ => ?_)
    exact length_flatMap_const _ _ _ (fun m _ => List.length_map _ _)
  · rw [List.nodup_flatMap]
    constructor
    · intro s _
      refine List.Nodup.map ?_ ((List.perm_insertionSort _ _).nodup_iff.mpr
        (List.nodup_dedup _))
      intro m1 m2 hmm
      simpa using congrArg (fun p => p.2.1) hmm
    · have hnd : (strainsOf df).Nodup := List.nodup_dedup _
      refine List.Pairwise.imp ?_ hnd
      intro s t hst
      intro x hx hy
      rcases List.mem_map.mp hx with ⟨m1, _, rfl⟩
      rcases List.mem_map.mp hy with ⟨m2, _, hxy⟩
      exact hst (congrArg Prod.fst hxy).symm
  · intro m hmem
    have hmem2 : m ∈ ((infectedRows df).map Row.moi).dedup := by
      unfold moisOf at hmem
      simpa using hmem
    have hdd := List.mem_dedup.mp hmem2
    rcases List.mem_map.mp hdd with ⟨r1, hr1, rfl⟩
    have h1 := List.mem_filter.mp hr1
    exact hm r1 h1.1 (by simpa using h1.2)
  · intro r hrdf hnull hmem
    rw [hstruct] at hmem
    rcases List.mem_append.mp hmem with hI | hC
    · have := (List.mem_filter.mp hI).2
      simp [hnull] at this
    · rcases List.mem_flatMap.mp hC with ⟨s, hs, hsm⟩
      rcases List.mem_flatMap.mp hsm with ⟨m, _, hmp⟩
      rcases List.mem_map.mp hmp with ⟨r0, _, heq⟩
      have : r.strain = s := by
        rw [← heq]
        rfl
      exact hstrain_ne s hs (by rw [← this, hnull])

/-- Rows for the C2 witness: one uninfected sentinel row and two infected
rows with strains HA and TFEB at mois 1 and 3 (S = 2, M = 2, baseline of
1 row, so 2 + 2·2·1 = 6 output rows). -/
def rowC2n : Row := { row0 with strain := "null", moi := 0 }

def rowC2h : Row := { row0 with strain := "HA", moi := 1 }

def rowC2t : Row := { row0 with strain := "TFEB", moi := 3 }

def dfC2 : List Row := [rowC2n, rowC2h, rowC2t]

/-- Witness for C2: on the concrete dataset, the output has
2 + 2·(2·1) = 6 rows and the original uninfected row is gone. -/
theorem claim_C2_witness :
    (∀ r ∈ dfC2, r.strain ≠ "null" → r.moi ≠ 0)
    ∧ (make_t0 dfC2).length = 6
    ∧ rowC2n ∉ make_t0 dfC2 := by
  have hm : ∀ r ∈ dfC2, r.strain ≠ "null" → r.moi ≠ 0 := by
    intro r hr
    fin_cases hr
    · intro hs
      exact absurd rfl hs
    · intro _
      norm_num [rowC2h, row0]
    · intro _
      norm_num [rowC2t, row0]
  have h := claim_C2 dfC2 hm
  refine ⟨hm, ?_, h.2.2.2.2 rowC2n (by simp [dfC2]) rfl⟩
  rw [h.2.1]
  have h1 : (infectedRows dfC2).length = 2 := by decide
  have h2 : (strainsOf dfC2).length = 2 := by decide
  have h3 : (moisOf dfC2).length = 2 := by decide
  have h4 : (t0Base dfC2).length = 1 := by decide
  rw [h1, h2, h3, h4]

/-! ## Helper lemmas for the outlier excluder -/

theorem filterMap_const_none {α : Type} (l : List α) :
    l.filterMap (fun _ => (none : Option ℚ)) = [] := by
  induction l with
  | nil => rfl
  | cons a t ih => simp [List.filterMap_cons, ih]

theorem filterMap_const_some {α : Type} (l : List α) (x : ℚ) :
    l.filterMap (fun _ => some x) = List.replicate l.length x := by
  induction l with
  | nil => rfl
  | cons a t ih => simp [List.filterMap_cons, ih, List.replicate_succ]

/-- The defined entries of the statistic column broadcast by
`calc_image_stat`: one copy of the group scalar per row when it is defined,
nothing when it is NaN. -/
theorem filterMap_statField_calc (p : StatParam) (h : List Row) :
    (calc_image_stat h p).filterMap (statField p)
      = match statOf p h with
        | some x => List.replicate h.length x
        | none => [] := by
  unfold calc_image_stat
  rw [List.filterMap_map]
  have hcomp : (statField p ∘ setStat p (statOf p h)) = fun _ => statOf p h :=
    funext fun r => statField_setStat p (statOf p h) r
  rw [hcomp]
  cases hs : statOf p h with
  | none => exact filterMap_const_none h
  | some x => simpa using filterMap_const_some h x

theorem qmean_replicate (n : ℕ) (x : ℚ) (hn : n ≠ 0) :
    qmean (List.replicate n x) = some x := by
  unfold qmean
  rw [if_neg (by simp [hn])]
  rw [List.sum_replicate, List.length_replicate]
  have hne : ((n : ℚ)) ≠ 0 := Nat.cast_ne_zero.mpr hn
  rw [nsmul_eq_mul, mul_comm, mul_div_assoc, div_self hne, mul_one]

theorem qvarSample_replicate (n : ℕ) (x : ℚ) (hn : 2 ≤ n) :
    qvarSample (List.replicate n x) = some 0 := by
  unfold qvarSample
  rw [if_neg (by simp; omega)]
  have hne : ((n : ℚ)) ≠ 0 := Nat.cast_ne_zero.mpr (by omega)
  have hmean : (List.replicate n x).sum / ((List.replicate n x).length : ℚ) = x := by
    rw [List.sum_replicate, List.length_replicate, nsmul_eq_mul, mul_comm, mul_div_assoc,
      div_self hne, mul_one]
  have hmap : (List.replicate n x).map
      (fun y => (y - (List.replicate n x).sum / ((List.replicate n x).length : ℚ)) ^ 2)
      = List.replicate n 0 := by
    rw [List.map_replicate, hmean]
    simp
  rw [hmap]
  simp

theorem qvarSample_nonneg (xs : List ℚ) (v : ℚ) (h : qvarSample xs = some v) : 0 ≤ v := by
  unfold qvarSample at h
  by_cases hl : xs.length < 2
  · rw [if_pos hl] at h
    cases h
  · rw [if_neg hl] at h
    have hv : v = ((xs.map (fun x => (x - xs.sum / xs.length) ^ 2)).sum) / (xs.length - 1) := by
      cases h
      rfl
    rw [hv]
    apply div_nonneg
    · exact List.sum_nonneg (fun a ha => by
        rcases List.mem_map.mp ha with ⟨y, _, rfl⟩
        positivity)
    · have : (2 : ℚ) ≤ xs.length := by exact_mod_cast Nat.le_of_not_lt hl
      linarith

theorem dedup_eq_singleton_of_all {α : Type} [DecidableEq α] (l : List α) (c : α)
    (hne : l ≠ []) (h : ∀ x ∈ l, x = c) : l.dedup = [c] := by
  induction l with
  | nil => exact absurd rfl hne
  | cons a t ih =>
    cases t with
    | nil =>
      rw [h a (by simp)]
      rfl
    | cons b u =>
      have ht : (b :: u).dedup = [c] :=
        ih (by simp) (fun x hx => h x (List.mem_cons_of_mem a hx))
      have hab : a = b := (h a (by simp)).trans (h b (by simp)).symm
      rw [List.dedup_cons_of_mem (by rw [hab]; exact List.mem_cons_self b u)]
      exact ht

/-- Membership in the outlier excluder's output: a broadcast row survives
iff its statistic, the group mean and the group variance are all defined and
the squared deviation is below the squared threshold. -/
theorem mem_remove_outliers (g : List Row) (p : StatParam) (r : Row) :
    r ∈ remove_outliers_image g p ↔
      r ∈ broadcastStat p g ∧
      ∃ x mv vv, statField p r = some x ∧ excluderMean p g = some mv
        ∧ excluderVar p g = some vv ∧ (mv - x) ^ 2 < (num_std p) ^ 2 * vv := by
  unfold remove_outliers_image
  rw [List.mem_filter]
  constructor
  · rintro ⟨h1, h2⟩
    refine ⟨h1, ?_⟩
    cases hx : statField p r with
    | none =>
      rw [hx] at h2
      simp at h2
    | some x =>
      cases hm : excluderMean p g with
      | none =>
        rw [hx, hm] at h2
        simp at h2
      | some mv =>
        cases hv : excluderVar p g with
        | none =>
          rw [hx, hm, hv] at h2
          simp at h2
        | some vv =>
          rw [hx, hm, hv] at h2
          simp at h2
          exact ⟨x, mv, vv, rfl, rfl, rfl, h2⟩
  · rintro ⟨h1, x, mv, vv, hx, hm, hv, hlt⟩
    refine ⟨h1, ?_⟩
    rw [hx, hm, hv]
    simpa using hlt

/-- The squared-form outlier test is equivalent, over ℝ, to the source's
`|mean - x| < num_std * std` with `std = sqrt var`. -/
theorem sq_lt_iff_abs_lt_sqrt (m x k v : ℝ) (hk : 0 ≤ k) :
    (m - x) ^ 2 < k ^ 2 * v ↔ |m - x| < k * Real.sqrt v := by
  have hks : k * Real.sqrt v = Real.sqrt (k ^ 2 * v) := by
    rw [Real.sqrt_mul (sq_nonneg k) v, Real.sqrt_sq hk]
  rw [hks, ← sq_abs (m - x)]
  exact (Real.lt_sqrt (abs_nonneg _)).symm

/-! ## C9: a (condition, timepoint) group with a single image loses all rows -/

/-- C9: when every row of a comparison group belongs to the same
(well, field) image, the outlier excluder removes every row: with one image
the broadcast statistic is constant, so the sample standard deviation is 0
(several rows) or undefined (one row), and a zero deviation is never
strictly below `num_std` times a zero deviation bound. -/
theorem claim_C9 (g : List Row) (p : StatParam)
    (hone : ∀ a ∈ g, ∀ b ∈ g, wfKey a = wfKey b) :
    remove_outliers_image g p = [] := by
  cases g with
  | nil => rfl
  | cons a t =>
    have hkeys : ((a :: t).map wfKey).dedup = [wfKey a] := by
      apply dedup_eq_singleton_of_all _ _ (by simp)
      intro x hx
      rcases List.mem_map.mp hx with ⟨r1, hr1, rfl⟩
      exact hone r1 hr1 a (List.mem_cons_self a t)
    have hfil : (a :: t).filter (fun r => wfKey r = wfKey a) = a :: t := by
      rw [List.filter_eq_self]
      intro b hb
      simp [hone b hb a (List.mem_cons_self a t)]
    have hbro : broadcastStat p (a :: t) = calc_image_stat (a :: t) p := by
      unfold broadcastStat groupApply
      rw [hkeys]
      simp only [List.flatMap_cons, List.flatMap_nil, List.append_nil]
      rw [hfil]
    have hrepr : remove_outliers_image (a :: t) p
        = (broadcastStat p (a :: t)).filter (fun r =>
            match statField p r, excluderMean p (a :: t), excluderVar p (a :: t) with
            | some x, some mv, some vv => decide ((mv - x) ^ 2 < (num_std p) ^ 2 * vv)
            | _, _, _ => false) := rfl
    rw [hrepr, List.filter_eq_nil_iff]
    intro b hb
    rw [hbro] at hb
    unfold calc_image_stat at hb
    rcases List.mem_map.mp hb with ⟨r0, _, rfl⟩
    cases hs : statOf p (a :: t) with
    | none =>
      simp [statField_setStat]
    | some x =>
      have hvals : excluderVals p (a :: t) = List.replicate (a :: t).length x := by
        unfold excluderVals
        rw [hbro, filterMap_statField_calc, hs]
      have hmean : excluderMean p (a :: t) = some x := by
        unfold excluderMean
        rw [hvals]
        exact qmean_replicate _ _ (by simp)
      by_cases hlen2 : (a :: t).length < 2
      · have hvar : excluderVar p (a :: t) = none := by
          unfold excluderVar qvarSample
          rw [hvals]
          simp only [List.length_replicate]
          rw [if_pos hlen2]
        simp [statField_setStat, hmean, hvar]
      · have hvar : excluderVar p (a :: t) = some 0 := by
          unfold excluderVar
          rw [hvals]
          exact qvarSample_replicate _ _ (by omega)
        simp [statField_setStat, hmean, hvar]

/-- Rows for the C9 witness: a two-row group forming a single image. -/
def rowC9b : Row := { row0 with nuc_intens := some 5 }

def gC9 : List Row := [row0, rowC9b]

/-- Witness for C9: the concrete single-image two-row group comes out empty
from the fluorescence outlier pass. -/
theorem claim_C9_witness :
    (∀ a ∈ gC9, ∀ b ∈ gC9, wfKey a = wfKey b)
    ∧ remove_outliers_image gC9 StatParam.mean_intens = [] :=
  ⟨by decide, claim_C9 gC9 StatParam.mean_intens (by decide)⟩

/-! ## C1: the two outlier passes and their keep/drop criterion -/

/-- The per-image statistic of a row's (well, field) image within its
comparison group. -/
def imgStat (g : List Row) (p : StatParam) (r0 : Row) : Option ℚ :=
  statOf p (g.filter (fun x => wfKey x = wfKey r0))

/-- The broadcast-enriched version of a group row (its image statistic
stored in the `image_*` column), as produced by `remove_outliers_image`. -/
def enrich (g : List Row) (p : StatParam) (r0 : Row) : Row :=
  setStat p (imgStat g p r0) r0

theorem num_std_nonneg (p : StatParam) : (0 : ℚ) ≤ num_std p := by
  cases p <;> norm_num [num_std]

/-- C1: the multipliers are 5 for `mean_intens` and 3 for `totalcount`; the
passes run in that order, the second on the output of the first, each at
(condition, timepoint) granularity; and within a group whose broadcast mean
`m` and sample variance `v` are defined, a row whose image statistic is `x`
is kept iff `|m - x| < num_std * sqrt v` — equivalently, dropped iff the
deviation reaches `num_std` standard deviations. -/
theorem claim_C1 :
    (num_std .mean_intens = 5 ∧ num_std .totalcount = 3)
    ∧ (∀ df : List Row, outlier_passes df
        = outlier_pass .totalcount (outlier_pass .mean_intens df)
        ∧ outlier_pass .mean_intens df
          = groupApply condTpKey (fun g => remove_outliers_image g .mean_intens) df)
    ∧ (∀ (g : List Row) (p : StatParam) (m v : ℚ),
        excluderMean p g = some m → excluderVar p g = some v →
        ∀ r0 ∈ g, ∀ x : ℚ, imgStat g p r0 = some x →
          (enrich g p r0 ∈ remove_outliers_image g p ↔
            |(m : ℝ) - (x : ℝ)| < ((num_std p : ℚ) : ℝ) * Real.sqrt ((v : ℚ) : ℝ))) := by
  refine ⟨⟨rfl, rfl⟩, fun df => ⟨rfl, rfl⟩, ?_⟩
  intro g p m v hm hv r0 hr0 x hx
  have hk : (0 : ℝ) ≤ ((num_std p : ℚ) : ℝ) := by
    exact_mod_cast num_std_nonneg p
  have hmem : enrich g p r0 ∈ broadcastStat p g :=
    (mem_broadcastStat p g _).mpr ⟨r0, hr0, rfl⟩
  have hsf : statField p (enrich g p r0) = some x := by
    unfold enrich
    rw [statField_setStat]
    exact hx
  rw [mem_remove_outliers]
  constructor
  · rintro ⟨_, x2, mv2, vv2, hx2, hm2, hv2, hlt⟩
    rw [hsf] at hx2
    rw [hm] at hm2
    rw [hv] at hv2
    cases hx2
    cases hm2
    cases hv2
    have hltR : ((m : ℝ) - (x : ℝ)) ^ 2 < ((num_std p : ℚ) : ℝ) ^ 2 * ((v : ℚ) : ℝ) := by
      exact_mod_cast hlt
    exact (sq_lt_iff_abs_lt_sqrt _ _ _ _ hk).mp hltR
  · intro habs
    refine ⟨hmem, x, m, v, hsf, hm, hv, ?_⟩
    have hltR := (sq_lt_iff_abs_lt_sqrt ((m : ℚ) : ℝ) ((x : ℚ) : ℝ)
      ((num_std p : ℚ) : ℝ) ((v : ℚ) : ℝ) hk).mpr habs
    exact_mod_cast hltR

/-- Rows for the C1 witness: two one-row images in the same comparison
group, with parasite totals 1 and 3, so the broadcast `totalcount` column is
[1, 3]: mean 2 and sample variance 2. -/
def rowC1a : Row := { row0 with well := "w1", count := 1 }

def rowC1b : Row := { row0 with well := "w2", count := 3 }

def gC1 : List Row := [rowC1a, rowC1b]

/-- Witness for C1: at the concrete two-image group, the theorem turns
membership of the first image's enriched row into the concrete real
inequality `|2 - 1| < 3 * sqrt 2`. -/
theorem claim_C1_witness :
    excluderMean .totalcount gC1 = some 2
    ∧ excluderVar .totalcount gC1 = some 2
    ∧ rowC1a ∈ gC1
    ∧ imgStat gC1 .totalcount rowC1a = some 1
    ∧ (enrich gC1 .totalcount rowC1a ∈ remove_outliers_image gC1 .totalcount ↔
        |((2 : ℚ) : ℝ) - ((1 : ℚ) : ℝ)|
          < ((num_std .totalcount : ℚ) : ℝ) * Real.sqrt (((2 : ℚ) : ℝ))) := by
  have hkeys : (gC1.map wfKey).dedup = [("w1", "1"), ("w2", "1")] := by decide
  have hfa : gC1.filter (fun r => wfKey r = ("w1", "1")) = [rowC1a] := by decide
  have hfb : gC1.filter (fun r => wfKey r = ("w2", "1")) = [rowC1b] := by decide
  have hsa : statOf .totalcount [rowC1a] = some 1 := by
    norm_num [statOf, rowC1a, row0]
  have hsb : statOf .totalcount [rowC1b] = some 3 := by
    norm_num [statOf, rowC1b, row0]
  have hbro : broadcastStat .totalcount gC1
      = calc_image_stat [rowC1a] .totalcount ++ calc_image_stat [rowC1b] .totalcount := by
    unfold broadcastStat groupApply
    rw [hkeys]
    simp only [List.flatMap_cons, List.flatMap_nil, List.append_nil]
    rw [hfa, hfb]
  have hvals : excluderVals .totalcount gC1 = [1, 3] := by
    unfold excluderVals
    rw [hbro, List.filterMap_append, filterMap_statField_calc, filterMap_statField_calc,
      hsa, hsb]
    rfl
  have hmean : excluderMean .totalcount gC1 = some 2 := by
    unfold excluderMean
    rw [hvals]
    norm_num [qmean]
    simp
  have hvar : excluderVar .totalcount gC1 = some 2 := by
    unfold excluderVar
    rw [hvals]
    norm_num [qvarSample]
  have himg : imgStat gC1 .totalcount rowC1a = some 1 := by
    unfold imgStat
    have hfa2 : gC1.filter (fun x => wfKey x = wfKey rowC1a) = [rowC1a] := by decide
    rw [hfa2]
    exact hsa
  exact ⟨hmean, hvar, by decide, himg,
    claim_C1.2.2 gC1 .totalcount 2 2 hmean hvar rowC1a (by decide) 1 himg⟩

/-! ## C8: the excluder's moments are cell-count-weighted -/

theorem flatMap_congr_mem {α β : Type} (l : List α) (f h : α → List β)
    (he : ∀ a ∈ l, f a = h a) : l.flatMap f = l.flatMap h := by
  induction l with
  | nil => rfl
  | cons a t ih =>
    rw [List.flatMap_cons, List.flatMap_cons, he a (by simp),
      ih (fun b hb => he b (List.mem_cons_of_mem a hb))]

theorem filterMap_flatMap_local {α β γ : Type} (l : List α) (f : α → List β)
    (g : β → Option γ) :
    (l.flatMap f).filterMap g = l.flatMap (fun a => (f a).filterMap g) := by
  induction l with
  | nil => rfl
  | cons a t ih => simp [List.flatMap_cons, List.filterMap_append, ih]

theorem sum_flatMap_replicate {K : Type} (ks : List K) (n : K → ℕ) (s : K → ℚ) :
    (ks.flatMap (fun k => List.replicate (n k) (s k))).sum
      = (ks.map (fun k => (n k : ℚ) * s k)).sum := by
  induction ks with
  | nil => rfl
  | cons a t ih =>
    rw [List.flatMap_cons, List.sum_append, List.sum_replicate, List.map_cons,
      List.sum_cons, ih, nsmul_eq_mul]

theorem length_flatMap_replicate {K : Type} (ks : List K) (n : K → ℕ) (s : K → ℚ) :
    (ks.flatMap (fun k => List.replicate (n k) (s k))).length = (ks.map n).sum := by
  induction ks with
  | nil => rfl
  | cons a t ih =>
    rw [List.flatMap_cons, List.length_append, List.length_replicate, List.map_cons,
      List.sum_cons, ih]

/-- Rows for the concrete part of C8: image w1 has one cell (total 0), image
w2 has two cells (total 6), so the broadcast column is [0, 6, 6]: its mean 4
is the cell-count-weighted mean, not the per-distinct-image mean 3. -/
def rowC8a : Row := { row0 with well := "w1", count := 0 }

def rowC8b : Row := { row0 with well := "w2", count := 3 }

def rowC8c : Row := { row0 with well := "w2", count := 3 }

def gC8 : List Row := [rowC8a, rowC8b, rowC8c]

/-- C8: in `remove_outliers_image`, the comparison group's moments are
taken over the per-row broadcast statistic column, so every image
contributes once per cell: the column is the concatenation of one copy of
the image statistic per row of the image, the mean is the cell-count
weighted mean of the image statistics, and on the concrete group `gC8`
(images of 1 and 2 cells) it differs from the unweighted mean over distinct
images. -/
theorem claim_C8 (g : List Row) (p : StatParam) (sfun : String × String → ℚ)
    (hg : g ≠ [])
    (hs : ∀ k ∈ (g.map wfKey).dedup,
      statOf p (g.filter (fun r => wfKey r = k)) = some (sfun k)) :
    excluderVals p g
      = ((g.map wfKey).dedup).flatMap (fun k =>
          List.replicate (g.filter (fun r => wfKey r = k)).length (sfun k))
    ∧ excluderMean p g
      = some ((((g.map wfKey).dedup).map
            (fun k => ((g.filter (fun r => wfKey r = k)).length : ℚ) * sfun k)).sum
          / (((g.map wfKey).dedup).map
            (fun k => ((g.filter (fun r => wfKey r = k)).length : ℚ))).sum)
    ∧ excluderMean .totalcount gC8
        ≠ qmean (((gC8.map wfKey).dedup).filterMap
            (fun k => statOf .totalcount (gC8.filter (fun r => wfKey r = k)))) := by
  have hvals : excluderVals p g
      = ((g.map wfKey).dedup).flatMap (fun k =>
          List.replicate (g.filter (fun r => wfKey r = k)).length (sfun k)) := by
    unfold excluderVals broadcastStat groupApply
    rw [filterMap_flatMap_local]
    refine flatMap_congr_mem _ _ _ (fun k hk => ?_)
    rw [filterMap_statField_calc, hs k hk]
  refine ⟨hvals, ?_, ?_⟩
  · have hlen : (excluderVals p g).length
        = (((g.map wfKey).dedup).map
            (fun k => (g.filter (fun r => wfKey r = k)).length)).sum := by
      rw [hvals]
      exact length_flatMap_replicate _ _ _
    have hsum : (excluderVals p g).sum
        = (((g.map wfKey).dedup).map
            (fun k => ((g.filter (fun r => wfKey r = k)).length : ℚ) * sfun k)).sum := by
      rw [hvals]
      exact sum_flatMap_replicate _ _ _
    have hne : excluderVals p g ≠ [] := by
      rcases List.exists_mem_of_ne_nil g hg with ⟨r0, hr0⟩
      have hk0 : wfKey r0 ∈ (g.map wfKey).dedup :=
        List.mem_dedup.mpr (List.mem_map_of_mem _ hr0)
      have hr0f : r0 ∈ g.filter (fun r => wfKey r = wfKey r0) :=
        List.mem_filter.mpr ⟨hr0, by simp⟩
      intro hnil
      have h0 : (excluderVals p g).length = 0 := by rw [hnil]; rfl
      rw [hlen] at h0
      have hpos : 1 ≤ (g.filter (fun r => wfKey r = wfKey r0)).length :=
        List.length_pos.mpr (List.ne_nil_of_mem hr0f)
      have hle : (g.filter (fun r => wfKey r = wfKey r0)).length
          ≤ (((g.map wfKey).dedup).map
            (fun k => (g.filter (fun r => wfKey r = k)).length)).sum :=
        List.single_le_sum (fun x _ => Nat.zero_le x) _ (List.mem_map_of_mem _ hk0)
      omega
    unfold excluderMean qmean
    rw [if_neg hne, hsum, hlen]
    congr 1
    rw [Nat.cast_list_sum, List.map_map]
    rfl
  · have hkeys : (gC8.map wfKey).dedup = [("w1", "1"), ("w2", "1")] := by decide
    have hfa : gC8.filter (fun r => wfKey r = ("w1", "1")) = [rowC8a] := by decide
    have hfb : gC8.filter (fun r => wfKey r = ("w2", "1")) = [rowC8b, rowC8c] := by decide
    have hsa : statOf .totalcount [rowC8a] = some 0 := by
      norm_num [statOf, rowC8a, row0]
    have hsb : statOf .totalcount [rowC8b, rowC8c] = some 6 := by
      norm_num [statOf, rowC8b, rowC8c, row0]
    have hbro : broadcastStat .totalcount gC8
        = calc_image_stat [rowC8a] .totalcount
          ++ calc_image_stat [rowC8b, rowC8c] .totalcount := by
      unfold broadcastStat groupApply
      rw [hkeys]
      simp only [List.flatMap_cons, List.flatMap_nil, List.append_nil]
      rw [hfa, hfb]
    have hv8 : excluderVals .totalcount gC8 = [0, 6, 6] := by
      unfold excluderVals
      rw [hbro, List.filterMap_append, filterMap_statField_calc, filterMap_statField_calc,
        hsa, hsb]
      rfl
    have hm8 : excluderMean .totalcount gC8 = some 4 := by
      unfold excluderMean
      rw [hv8]
      norm_num [qmean]
      simp
    have hrhs : (((gC8.map wfKey).dedup).filterMap
        (fun k => statOf .totalcount (gC8.filter (fun r => wfKey r = k)))) = [0, 6] := by
      rw [hkeys]
      simp only [List.filterMap_cons, List.filterMap_nil]
      rw [hfa, hfb, hsa, hsb]
    rw [hm8, hrhs]
    norm_num [qmean]

/-- The per-image statistic table for the C8 witness group. -/
def sfunC8 : String × String → ℚ := fun k => if k = ("w1", "1") then 0 else 6

/-- Witness for C8: the concrete group satisfies the hypotheses, and the
theorem gives the weighted-mean formula there. -/
theorem claim_C8_witness :
    gC8 ≠ []
    ∧ (∀ k ∈ (gC8.map wfKey).dedup,
        statOf .totalcount (gC8.filter (fun r => wfKey r = k)) = some (sfunC8 k))
    ∧ excluderMean .totalcount gC8
        = some ((((gC8.map wfKey).dedup).map
              (fun k => ((gC8.filter (fun r => wfKey r = k)).length : ℚ) * sfunC8 k)).sum
            / (((gC8.map wfKey).dedup).map
              (fun k => ((gC8.filter (fun r => wfKey r = k)).length : ℚ))).sum) := by
  have hkeys : (gC8.map wfKey).dedup = [("w1", "1"), ("w2", "1")] := by decide
  have hfa : gC8.filter (fun r => wfKey r = ("w1", "1")) = [rowC8a] := by decide
  have hfb : gC8.filter (fun r => wfKey r = ("w2", "1")) = [rowC8b, rowC8c] := by decide
  have hhs : ∀ k ∈ (gC8.map wfKey).dedup,
      statOf .totalcount (gC8.filter (fun r => wfKey r = k)) = some (sfunC8 k) := by
    intro k hk
    rw [hkeys] at hk
    fin_cases hk
    · rw [hfa, show sfunC8 ("w1", "1") = 0 from by decide]
      norm_num [statOf, rowC8a, row0]
    · rw [hfb, show sfunC8 ("w2", "1") = 6 from by decide]
      norm_num [statOf, rowC8b, rowC8c, row0]
  exact ⟨by simp [gC8], hhs, (claim_C8 gC8 .totalcount sfunC8 (by simp [gC8]) hhs).2.1⟩

/-! ## C10: the mean_intens pass drops every row with missing normalized
intensity -/

theorem omulc_isSome (c : ℚ) (o : Option ℚ) : (omulc c o).isSome = o.isSome := by
  cases o <;> rfl

theorem osub_isSome (a b : Option ℚ) : (osub a b).isSome = (a.isSome && b.isSome) := by
  cases a <;> cases b <;> rfl

theorem qmean_ne_nil (xs : List ℚ) (x : ℚ) (h : qmean xs = some x) : xs ≠ [] := by
  unfold qmean at h
  by_cases hx : xs = []
  · rw [if_pos hx] at h
    cases h
  · exact hx

theorem normRow_imageKey (df : List Row) (r : Row) :
    imageKey (normRow df r) = imageKey r := rfl

theorem imageKey_eq_of (a b : Row) (h1 : condTpKey a = condTpKey b)
    (h2 : wfKey a = wfKey b) : imageKey a = imageKey b := by
  unfold condTpKey at h1
  unfold wfKey at h2
  unfold imageKey
  simp only [Prod.mk.injEq] at h1 h2
  simp [h1.1, h1.2, h2.1, h2.2]

/-- C10: on a dataset whose raw `nuc_intens` is everywhere defined, every
row surviving the `mean_intens` outlier pass applied to the normalized
dataset has a defined (non-missing) normalized `nuc_intens`: rows of images
with undefined background get a missing per-image mean and fail the keep
test, so no separate missing-value drop is needed. -/
theorem claim_C10 (df : List Row) (hdef : ∀ r ∈ df, (r.nuc_intens).isSome = true) :
    ∀ r ∈ outlier_pass .mean_intens (normalize_intens df),
      (r.nuc_intens).isSome = true := by
  intro r hr
  unfold outlier_pass at hr
  rcases mem_groupApply condTpKey _ (normalize_intens df) r hr with ⟨c, _, hrg⟩
  rw [mem_remove_outliers] at hrg
  rcases hrg with ⟨hbst, x, mv, vv, hx, _, _, _⟩
  rcases (mem_broadcastStat _ _ r).mp hbst with ⟨r1, hr1, rfl⟩
  have hstat : statOf .mean_intens
      (((normalize_intens df).filter (fun z => condTpKey z = c)).filter
        (fun z => wfKey z = wfKey r1)) = some x := by
    rw [statField_setStat] at hx
    exact hx
  have hsub : (((normalize_intens df).filter (fun z => condTpKey z = c)).filter
      (fun z => wfKey z = wfKey r1)).filterMap Row.nuc_intens ≠ [] := by
    unfold statOf at hstat
    exact qmean_ne_nil _ x hstat
  obtain ⟨y, hy⟩ := List.exists_mem_of_ne_nil _ hsub
  rcases List.mem_filterMap.mp hy with ⟨r2, hr2, hr2i⟩
  have hr2g := List.mem_filter.mp hr2
  have hr2wf : wfKey r2 = wfKey r1 := by simpa using hr2g.2
  have hr1nd := (List.mem_filter.mp hr1).1
  have hr1c : condTpKey r1 = c := by simpa using (List.mem_filter.mp hr1).2
  have hr2nd := (List.mem_filter.mp hr2g.1).1
  have hr2c : condTpKey r2 = c := by simpa using (List.mem_filter.mp hr2g.1).2
  rcases (mem_normalize_intens df r1).mp hr1nd with ⟨r1s, hr1s, hre1⟩
  rcases (mem_normalize_intens df r2).mp hr2nd with ⟨r2s, hr2s, hre2⟩
  have hik12 : imageKey r2 = imageKey r1 :=
    imageKey_eq_of r2 r1 (by rw [hr2c, hr1c]) hr2wf
  have hiks : imageKey r2s = imageKey r1s := by
    have e1 : imageKey r1 = imageKey r1s := by rw [hre1, normRow_imageKey]
    have e2 : imageKey r2 = imageKey r2s := by rw [hre2, normRow_imageKey]
    rw [← e1, ← e2, hik12]
  have hb2 : (background_of df (imageKey r2s)).isSome = true := by
    have h2i : (r2.nuc_intens).isSome = true := by rw [hr2i]; rfl
    rw [hre2] at h2i
    unfold normRow at h2i
    simp only [omulc_isSome, osub_isSome, Bool.and_eq_true] at h2i
    exact h2i.2
  have hb1 : (background_of df (imageKey r1s)).isSome = true := by
    rw [← hiks]
    exact hb2
  rw [setStat_nuc_intens, hre1]
  unfold normRow
  simp only [omulc_isSome, osub_isSome, Bool.and_eq_true]
  exact ⟨hdef r1s hr1s, hb1⟩

/-- Witness for C10: a concrete one-row dataset with defined raw intensity. -/
theorem claim_C10_witness :
    (∀ r ∈ [row0], (r.nuc_intens).isSome = true)
    ∧ ∀ r ∈ outlier_pass .mean_intens (normalize_intens [row0]),
        (r.nuc_intens).isSome = true :=
  ⟨by decide, claim_C10 [row0] (by decide)⟩

/-! ## C7: per-condition statistics are unweighted means of per-well means -/

/-- Rows for the concrete part of C7: one condition with well wA (one cell,
intensity 0) and well wB (two cells, intensity 1 each): the per-condition
mean of per-well means is (0 + 1)/2 = 1/2, while the row-weighted mean over
raw cells is 2/3. -/
def rowC7a : Row := { row0 with well := "wA", nuc_intens := some 0 }

def rowC7b : Row := { row0 with well := "wB", nuc_intens := some 1 }

def rowC7c : Row := { row0 with well := "wB", nuc_intens := some 1 }

def dfC7 : List Row := [rowC7a, rowC7b, rowC7c]

/-- C7: every per-condition record aggregates the per-well table at
(moi, timepoint, strain) granularity, its mean and (squared) std for each
of the five metrics being the unweighted mean / sample variance of the
per-well mean values of its group; and on the concrete unequal-well-size
dataset `dfC7` the per-condition mean (1/2) is not the row-count-weighted
mean over raw cells (2/3). -/
theorem claim_C7 :
    (∀ (ws : List WellStat), ∀ c ∈ per_group_stats_conditions ws,
      c.mean_intens = qmean ((ws.filter (fun w => condKey w
          = (c.moi, c.timepoint, c.strain))).filterMap WellStat.mean_intens)
      ∧ c.var_intens = qvarSample ((ws.filter (fun w => condKey w
          = (c.moi, c.timepoint, c.strain))).filterMap WellStat.mean_intens)
      ∧ c.mean_percentposnuc = qmean ((ws.filter (fun w => condKey w
          = (c.moi, c.timepoint, c.strain))).filterMap WellStat.mean_percentposnuc)
      ∧ c.var_percentposnuc = qvarSample ((ws.filter (fun w => condKey w
          = (c.moi, c.timepoint, c.strain))).filterMap WellStat.mean_percentposnuc)
      ∧ c.mean_percentinf = qmean ((ws.filter (fun w => condKey w
          = (c.moi, c.timepoint, c.strain))).filterMap WellStat.mean_percentinf)
      ∧ c.var_percentinf = qvarSample ((ws.filter (fun w => condKey w
          = (c.moi, c.timepoint, c.strain))).filterMap WellStat.mean_percentinf)
      ∧ c.mean_count = qmean ((ws.filter (fun w => condKey w
          = (c.moi, c.timepoint, c.strain))).filterMap WellStat.mean_count)
      ∧ c.var_count = qvarSample ((ws.filter (fun w => condKey w
          = (c.moi, c.timepoint, c.strain))).filterMap WellStat.mean_count)
      ∧ c.mean_PVarea = qmean ((ws.filter (fun w => condKey w
          = (c.moi, c.timepoint, c.strain))).filterMap WellStat.mean_PVarea)
      ∧ c.var_PVarea = qvarSample ((ws.filter (fun w => condKey w
          = (c.moi, c.timepoint, c.strain))).filterMap WellStat.mean_PVarea))
    ∧ (∃ c ∈ per_group_stats_conditions (per_group_stats_well dfC7),
        c.mean_intens = some (1/2)
        ∧ c.mean_intens ≠ qmean (dfC7.filterMap Row.nuc_intens))
    ∧ qmean (dfC7.filterMap Row.nuc_intens) = some (2/3) := by
  have hq3 : qmean (dfC7.filterMap Row.nuc_intens) = some (2/3) := by
    have hfm : dfC7.filterMap Row.nuc_intens = [0, 1, 1] := by decide
    rw [hfm]
    norm_num [qmean]
    simp
  refine ⟨?_, ?_, hq3⟩
  · intro ws c hc
    rcases List.mem_map.mp hc with ⟨k, _, rfl⟩
    exact ⟨rfl, rfl, rfl, rfl, rfl, rfl, rfl, rfl, rfl, rfl⟩
  · have hwkeys : (dfC7.map wellKey).dedup
        = [((3:ℚ), (3:ℚ), "HA", "wA"), ((3:ℚ), (3:ℚ), "HA", "wB")] := by decide
    have hfA : dfC7.filter (fun r => wellKey r = ((3:ℚ), (3:ℚ), "HA", "wA"))
        = [rowC7a] := by decide
    have hfB : dfC7.filter (fun r => wellKey r = ((3:ℚ), (3:ℚ), "HA", "wB"))
        = [rowC7b, rowC7c] := by decide
    have hws : per_group_stats_well dfC7
        = [wellGroupStat dfC7 ((3:ℚ), (3:ℚ), "HA", "wA"),
           wellGroupStat dfC7 ((3:ℚ), (3:ℚ), "HA", "wB")] := by
      unfold per_group_stats_well
      rw [hwkeys]
      rfl
    have hkc : ((per_group_stats_well dfC7).map condKey).dedup = [((3:ℚ), (3:ℚ), "HA")] := by
      rw [hws]
      decide
    have hcs : per_group_stats_conditions (per_group_stats_well dfC7)
        = [condGroupStat (per_group_stats_well dfC7) ((3:ℚ), (3:ℚ), "HA")] := by
      unfold per_group_stats_conditions
      rw [hkc]
      rfl
    have hmA : (wellGroupStat dfC7 ((3:ℚ), (3:ℚ), "HA", "wA")).mean_intens = some 0 := by
      show qmean ((dfC7.filter (fun r => wellKey r
          = ((3:ℚ), (3:ℚ), "HA", "wA"))).filterMap Row.nuc_intens) = some 0
      rw [hfA]
      have : ([rowC7a].filterMap Row.nuc_intens) = [0] := by decide
      rw [this]
      norm_num [qmean]
    have hmB : (wellGroupStat dfC7 ((3:ℚ), (3:ℚ), "HA", "wB")).mean_intens = some 1 := by
      show qmean ((dfC7.filter (fun r => wellKey r
          = ((3:ℚ), (3:ℚ), "HA", "wB"))).filterMap Row.nuc_intens) = some 1
      rw [hfB]
      have : ([rowC7b, rowC7c].filterMap Row.nuc_intens) = [1, 1] := by decide
      rw [this]
      norm_num [qmean]
      simp
    have hfilws : (per_group_stats_well dfC7).filter
        (fun w => condKey w = ((3:ℚ), (3:ℚ), "HA")) = per_group_stats_well dfC7 := by
      rw [List.filter_eq_self]
      intro w hw
      rw [hws] at hw
      fin_cases hw <;> decide
    have hcm : (condGroupStat (per_group_stats_well dfC7)
        ((3:ℚ), (3:ℚ), "HA")).mean_intens = some (1/2) := by
      show qmean (((per_group_stats_well dfC7).filter (fun w => condKey w
          = ((3:ℚ), (3:ℚ), "HA"))).filterMap WellStat.mean_intens) = some (1/2)
      rw [hfilws, hws]
      simp only [List.filterMap_cons, List.filterMap_nil, hmA, hmB]
      norm_num [qmean]
      simp
    refine ⟨condGroupStat (per_group_stats_well dfC7) ((3:ℚ), (3:ℚ), "HA"), ?_, hcm, ?_⟩
    · rw [hcs]
      exact List.mem_cons_self _ _
    · rw [hcm, hq3]
      norm_num

/-- A concrete one-well per-well record for the C7 witness. -/
def wsC7 : WellStat :=
  { moi := 3, timepoint := 3, strain := "HA", well := "w",
    mean_intens := some 7, var_intens := none,
    mean_percentposnuc := some 0, var_percentposnuc := none,
    mean_percentinf := some 0, var_percentinf := none,
    mean_count := some 0, var_count := none,
    mean_PVarea := some 0, var_PVarea := none }

/-- Witness for C7: on a one-well per-well table, the per-condition record
exists, equals the mean of per-well means by the theorem, and evaluates to
the single well's mean. -/
theorem claim_C7_witness :
    condGroupStat [wsC7] ((3:ℚ), (3:ℚ), "HA") ∈ per_group_stats_conditions [wsC7]
    ∧ (condGroupStat [wsC7] ((3:ℚ), (3:ℚ), "HA")).mean_intens
        = qmean (([wsC7].filter (fun w => condKey w
            = ((3:ℚ), (3:ℚ), "HA"))).filterMap WellStat.mean_intens)
    ∧ (condGroupStat [wsC7] ((3:ℚ), (3:ℚ), "HA")).mean_intens = some 7 := by
  have hmem : condGroupStat [wsC7] ((3:ℚ), (3:ℚ), "HA")
      ∈ per_group_stats_conditions [wsC7] := by
    unfold per_group_stats_conditions
    have hk : (([wsC7] : List WellStat).map condKey).dedup = [((3:ℚ), (3:ℚ), "HA")] := by
      decide
    rw [hk]
    exact List.mem_cons_self _ _
  have h := (claim_C7.1 [wsC7] _ hmem).1
  refine ⟨hmem, h, ?_⟩
  show qmean (([wsC7].filter (fun w => condKey w
      = ((3:ℚ), (3:ℚ), "HA"))).filterMap WellStat.mean_intens) = some 7
  have hf : ([wsC7].filter (fun w => condKey w = ((3:ℚ), (3:ℚ), "HA"))) = [wsC7] := by
    decide
  rw [hf]
  have hfm : ([wsC7].filterMap WellStat.mean_intens) = [7] := by decide
  rw [hfm]
  norm_num [qmean]
